import Mathlib

/-!
Verification development for the ticket-classification pipeline
(`ml/predict.py` and `ml/train.py`).

The Python source is shallowly embedded: pure fragments become Lean
functions over `List Char` / `String` / `ℚ`; the external statistical
components (the spaCy language model, the fitted sklearn estimators and
`np.exp`) are parameters of the embedding, constrained only by the
contracts the code relies on.  Machine floats are modelled by exact
rationals; `np.exp` is abstracted by a positive function parameter.
Character classes implement the ASCII fragment of Python's regex classes
(all inputs of interest are ASCII).
-/

namespace TicketML

/-- Python regex `\w` (ASCII fragment): letters, digits, underscore. -/
def isWordChar (c : Char) : Bool :=
  c.isAlphanum || c = '_'

/-- Python regex `\s` (ASCII fragment): the six ASCII whitespace characters. -/
def isSpaceChar (c : Char) : Bool :=
  c = ' ' || c = '\t' || c = '\n' || c = '\r' || c = '\x0b' || c = '\x0c'

/-- Characters of the class `[0-9a-fA-F]` from the hex error-code pattern. -/
def isHexChar (c : Char) : Bool :=
  c.isDigit || ('a' ≤ c && c ≤ 'f') || ('A' ≤ c && c ≤ 'F')

/-- Characters of the class `[a-zA-Z0-9._-]` from the username pattern. -/
def isUserClassChar (c : Char) : Bool :=
  c.isAlphanum || c = '.' || c = '_' || c = '-'

/-- Whether position `i` of the text holds a `\w` character (out of range: no). -/
def wordAt (cs : List Char) (i : Nat) : Bool :=
  match cs[i]? with
  | some c => isWordChar c
  | none => false

/-- Python regex `\b` between positions `i-1` and `i`: exactly one side is a
word character (positions outside the text count as non-word). -/
def boundary (cs : List Char) (i : Nat) : Bool :=
  (if i = 0 then false else wordAt cs (i - 1)) != wordAt cs i

/-- Length of the maximal run of characters satisfying `p` starting at `i`. -/
def runFrom (p : Char → Bool) (cs : List Char) (i : Nat) : Nat :=
  ((cs.drop i).takeWhile p).length

/-- Case-sensitive literal match at position `i`. -/
def litAt (cs : List Char) (i : Nat) (lit : List Char) : Bool :=
  match lit with
  | [] => true
  | l :: ls =>
    match cs[i]? with
    | some c => c = l && litAt cs (i + 1) ls
    | none => false

/-- Case-insensitive literal match at position `i` (for `re.IGNORECASE`). -/
def litAtCI (cs : List Char) (i : Nat) (lit : List Char) : Bool :=
  match lit with
  | [] => true
  | l :: ls =>
    match cs[i]? with
    | some c => c.toLower = l.toLower && litAtCI cs (i + 1) ls
    | none => false

/-- The substring of length `len` starting at position `i`, as a `String`. -/
def sub (cs : List Char) (i len : Nat) : String :=
  String.mk ((cs.drop i).take len)

/-- Python `str.strip()`: drop leading and trailing whitespace. -/
def pyStrip (s : String) : String :=
  String.mk (((s.data.dropWhile isSpaceChar).reverse.dropWhile isSpaceChar).reverse)

/-- Accumulator pass of `pySplit`: words are maximal non-whitespace runs. -/
def pySplitAux : List Char → List Char → List String
  | [], acc => if acc.isEmpty then [] else [String.mk acc.reverse]
  | c :: rest, acc =>
    if isSpaceChar c then
      if acc.isEmpty then pySplitAux rest []
      else String.mk acc.reverse :: pySplitAux rest []
    else pySplitAux rest (c :: acc)

/-- Python `str.split()`: split on whitespace runs, discarding empty pieces. -/
def pySplit (s : String) : List String :=
  pySplitAux s.data []

/-- Embeds `_short_title` from `ml/predict.py` (`max_words = 8`):
first 8 whitespace-delimited words of the stripped text, or the fixed
fallback when no words exist. -/
def shortTitle (text : String) : String :=
  let words := pySplit (pyStrip text)
  if words = [] then "Ticket from user input"
  else String.intercalate " " (words.take 8)

/-- Alternation heads of the coded error pattern
`\b(?:ORA|ERR|SQL|E)-?\d{3,6}\b`, in the order `re` tries them. -/
def codedHeads : List (List Char) :=
  [['O', 'R', 'A'], ['E', 'R', 'R'], ['S', 'Q', 'L'], ['E']]

/-- Matches one alternation branch of the coded error pattern at position `i`:
the literal head, an optional dash, then a digit run of length 3–6 followed
by a word boundary.  (Backtracking inside `\d{3,6}\b` cannot shorten the
digit run, because every shorter cut is followed by a digit, i.e. a word
character; hence checking the maximal run is exact.) -/
def codedBranch (cs : List Char) (i : Nat) (head : List Char) :
    Option (String × Nat) :=
  if litAt cs i head then
    let k := i + head.length
    let k₂ := if cs[k]? = some '-' then k + 1 else k
    let r := runFrom Char.isDigit cs k₂
    if 3 ≤ r ∧ r ≤ 6 ∧ boundary cs (k₂ + r) then
      some (sub cs i (k₂ + r - i), k₂ + r)
    else none
  else none

/-- Matches `\b(?:ORA|ERR|SQL|E)-?\d{3,6}\b` at position `i`. -/
def matchCoded (cs : List Char) (i : Nat) : Option (String × Nat) :=
  if boundary cs i then codedHeads.findSome? (codedBranch cs i) else none

/-- Matches `\b0x[0-9a-fA-F]+\b` at position `i`.  As above, the trailing
`\b` can only hold after the maximal hex run. -/
def matchHex (cs : List Char) (i : Nat) : Option (String × Nat) :=
  if boundary cs i ∧ cs[i]? = some '0' ∧ cs[i + 1]? = some 'x' then
    let r := runFrom isHexChar cs (i + 2)
    if 1 ≤ r ∧ boundary cs (i + 2 + r) then
      some (sub cs i (2 + r), i + 2 + r)
    else none
  else none

/-- Matches `\bHTTP\s+(?:4|5)\d{2}\b` at position `i`. -/
def matchHttp (cs : List Char) (i : Nat) : Option (String × Nat) :=
  if boundary cs i ∧ litAt cs i ['H', 'T', 'T', 'P'] then
    let w := runFrom isSpaceChar cs (i + 4)
    let d := i + 4 + w
    if 1 ≤ w ∧ (cs[d]? = some '4' ∨ cs[d]? = some '5')
        ∧ (cs[d + 1]?.elim false Char.isDigit)
        ∧ (cs[d + 2]?.elim false Char.isDigit)
        ∧ boundary cs (d + 3) then
      some (sub cs i (d + 3 - i), d + 3)
    else none
  else none

/-- One `\d{1,3}\.` group of the IPv4 pattern at position `i`; returns the
position after the dot.  The digit run must have length 1–3 and be followed
by a dot (a longer run makes every greedy retreat land on a digit, so the
group fails exactly when the maximal run exceeds 3). -/
def ipGroup (cs : List Char) (i : Nat) : Option Nat :=
  let r := runFrom Char.isDigit cs i
  if 1 ≤ r ∧ r ≤ 3 ∧ cs[i + r]? = some '.' then some (i + r + 1) else none

/-- Final `\d{1,3}\b` part of the IPv4 pattern at position `c`. -/
def ipLast (cs : List Char) (i c : Nat) : Option (String × Nat) :=
  let r := runFrom Char.isDigit cs c
  if 1 ≤ r ∧ r ≤ 3 ∧ boundary cs (c + r) then
    some (sub cs i (c + r - i), c + r)
  else none

/-- Matches `\b(?:\d{1,3}\.){3}\d{1,3}\b` at position `i`: three dotted
digit groups in sequence, then the final group with a closing boundary. -/
def matchIp (cs : List Char) (i : Nat) : Option (String × Nat) :=
  if boundary cs i then
    (ipGroup cs i).bind fun a =>
      (ipGroup cs a).bind fun b =>
        (ipGroup cs b).bind fun c =>
          ipLast cs i c
  else none

/-- Greedy-with-backtracking tail of the username pattern: the largest
`j ∈ [2, m]` such that a word boundary holds after `i₁ + j` (where `i₁` is
the position after the leading letter). -/
def bestLen (cs : List Char) (i₁ : Nat) : Nat → Option Nat
  | 0 => none
  | 1 => none
  | j + 2 =>
    if boundary cs (i₁ + (j + 2)) then some (j + 2) else bestLen cs i₁ (j + 1)

/-- Matches `\b[a-zA-Z][a-zA-Z0-9._-]{2,15}\b` at position `i`. -/
def matchUsername (cs : List Char) (i : Nat) : Option (String × Nat) :=
  if boundary cs i ∧ (cs[i]?.elim false Char.isAlpha) then
    let m := min 15 (runFrom isUserClassChar cs (i + 1))
    match bestLen cs (i + 1) m with
    | some j => some (sub cs i (1 + j), i + 1 + j)
    | none => none
  else none

/-- Separator part `\s*[:=]?\s*` of the marker pattern, then the embedded
username pattern; returns the text of group 2 and the end of the match.
The separators are disjoint from the username's leading letter, so maximal
munch agrees with the regex engine's backtracking. -/
def afterMarker (cs : List Char) (k : Nat) : Option (String × Nat) :=
  let a := k + runFrom isSpaceChar cs k
  let b := if cs[a]? = some ':' ∨ cs[a]? = some '=' then a + 1 else a
  let g := b + runFrom isSpaceChar cs b
  matchUsername cs g

/-- Matches `(user|username)\s*[:=]?\s*(<username pattern>)` (IGNORECASE) at
position `i`, in the alternation order `re` uses (`user` first); yields
group 2.  The pattern has no leading `\b`. -/
def matchMarker (cs : List Char) (i : Nat) : Option (String × Nat) :=
  if litAtCI cs i ['u', 's', 'e', 'r'] then
    match afterMarker cs (i + 4) with
    | some res => some res
    | none =>
      if litAtCI cs i ['u', 's', 'e', 'r', 'n', 'a', 'm', 'e'] then
        afterMarker cs (i + 8)
      else none
  else none

/-- Left-to-right non-overlapping scan, as `re.findall` / `re.finditer`
perform it: try a match at each position, resume after a match's end.
`fuel` dominates the number of steps (the position strictly increases). -/
def scanAux (f : Nat → Option (String × Nat)) (n : Nat) :
    Nat → Nat → List String
  | 0, _ => []
  | fuel + 1, i =>
    if n ≤ i then []
    else
      match f i with
      | some (s, j) => s :: scanAux f n fuel (max j (i + 1))
      | none => scanAux f n fuel (i + 1)

/-- All matches of a position-wise matcher over a text, in scan order. -/
def findAll (f : List Char → Nat → Option (String × Nat)) (text : String) :
    List String :=
  let cs := text.data
  scanAux (f cs) cs.length (cs.length + 1) 0

/-- The fixed gazetteer `system_keywords` from `_extract_entities`. -/
def systemKeywords : List String :=
  ["SAP", "Salesforce", "Jira", "Confluence", "VPN", "Oracle", "CRM", "ERP",
   "Outlook", "Windows", "Linux"]

/-- Whether `needle` starts the list `hay` (character-wise equality). -/
def startsWith : List Char → List Char → Bool
  | _, [] => true
  | [], _ :: _ => false
  | h :: hs, n :: ns => h = n && startsWith hs ns

/-- Python substring test `needle in hay` on character lists. -/
def containsSub (hay needle : List Char) : Bool :=
  if startsWith hay needle then true
  else
    match hay with
    | [] => false
    | _ :: t => containsSub t needle

/-- Python `sorted(set(v))` for string lists: deduplicate, then sort
ascending by the code-point lexicographic order. -/
def sortedDedup (l : List String) : List String :=
  List.insertionSort (· ≤ ·) l.dedup

/-- The `EntityBundle` shape returned by `_extract_entities`. -/
structure EntityBundle where
  error_codes : List String
  ip_addresses : List String
  usernames : List String
  systems : List String
deriving Repr, DecidableEq

/-- Embeds `_extract_entities` from `ml/predict.py`.  `ner` stands for the
texts of the spaCy entities whose label is ORG, PRODUCT or GPE — the output
of the external statistical recognizer on this text, which the code appends
to `systems` before the keyword pass.  Everything else follows the source:
three error-code patterns, the IPv4 pattern, the gazetteer substring pass
over upper-cased text, marker-based usernames, then every identifier-shaped
token (containing a digit, dot or underscore), and finally
`sorted(set(·))` per list. -/
def extractEntities (text : String) (ner : List String) : EntityBundle :=
  let cs := text.data
  let errs := findAll matchCoded text ++ findAll matchHex text
      ++ findAll matchHttp text
  let ips := findAll matchIp text
  let sysKw := systemKeywords.filter
    (fun kw => containsSub (cs.map Char.toUpper) (kw.data.map Char.toUpper))
  let markerUsers := findAll matchMarker text
  let genericUsers := (findAll matchUsername text).filter fun s =>
    s.data.any Char.isDigit || s.data.any (· = '.') || s.data.any (· = '_')
  { error_codes := sortedDedup errs
    ip_addresses := sortedDedup ips
    usernames := sortedDedup (markerUsers ++ genericUsers)
    systems := sortedDedup (ner ++ sysKw) }

/-- Output shape of `decision_function(X)[0]`: an ndarray of per-class
scores for multi-class models, a scalar margin for binary ones. -/
inductive DecisionOut where
  | arr : List ℚ → DecisionOut
  | scalar : ℚ → DecisionOut

/-- A fitted sklearn estimator as `_predict_with_confidence` observes it,
for inputs of vector type `Vec`: capability flags probed with `hasattr`,
and the per-input outputs of `predict_proba`, `predict`, `classes_` and
`decision_function`. -/
structure MLModel (Vec : Type) where
  hasProba : Bool
  probaOf : Vec → List ℚ
  classes : List String
  predictOf : Vec → String
  hasDecision : Bool
  decisionOf : Vec → DecisionOut

/-- Helper for `np.argmax`: fold carrying the first index of the running
maximum. -/
def argmaxAux : List ℚ → Nat → Nat → ℚ → Nat
  | [], _, best, _ => best
  | x :: xs, i, best, bv =>
    if bv < x then argmaxAux xs (i + 1) i x else argmaxAux xs (i + 1) best bv

/-- Minimal index of a maximal element, as `np.argmax` returns it
(0 on the empty list, which `np.argmax` rejects; theorems assume a
non-empty probability vector). -/
def argmax : List ℚ → Nat
  | [] => 0
  | x :: xs => argmaxAux xs 1 0 x

/-- Python `np.max` over a non-empty array (0 on empty, guarded away). -/
def listMax : List ℚ → ℚ
  | [] => 0
  | x :: xs => xs.foldl max x

/-- Python `np.min` over a non-empty array (0 on empty, guarded away). -/
def listMin : List ℚ → ℚ
  | [] => 0
  | x :: xs => xs.foldl min x

/-- Embeds `_predict_with_confidence` from `ml/predict.py` at one input
vector.  `expF` abstracts `np.exp` (any positive function; the real
exponential satisfies every hypothesis placed on it).  Paths, as in the
source: maximum class probability when `predict_proba` exists; otherwise
the min-max-normalized decision scores (array case: the whole array is
shifted by its minimum and divided by `max - min + 1e-9`, then its maximum
is the confidence) or the sigmoid of a scalar margin; otherwise `1.0`. -/
def predictWithConfidence {Vec : Type} (expF : ℚ → ℚ) (m : MLModel Vec)
    (v : Vec) : String × ℚ :=
  if m.hasProba then
    let p := m.probaOf v
    let idx := argmax p
    (m.classes.getD idx "", p.getD idx 0)
  else
    let y := m.predictOf v
    if m.hasDecision then
      match m.decisionOf v with
      | .arr scores =>
        let mn := listMin scores
        let d := listMax scores - mn + 1 / 1000000000
        let norm := scores.map (fun x => (x - mn) / d)
        (y, listMax norm)
      | .scalar s => (y, 1 / (1 + expF (-s)))
    else (y, 1)

/-- Python builtin `min` on two rationals, written so that it evaluates by
kernel reduction (it equals `min`; see `qmin_eq_min`). -/
def qmin (a b : ℚ) : ℚ := if a ≤ b then a else b

/-- Round-half-to-even on rationals, the rounding Python's `round` uses. -/
def roundHalfEven (x : ℚ) : ℤ :=
  let n := ⌊x⌋
  let f := x - n
  if f < 1 / 2 then n
  else if 1 / 2 < f then n + 1
  else if 2 ∣ n then n else n + 1

/-- Python `round(x, 4)`. -/
def round4 (x : ℚ) : ℚ :=
  (roundHalfEven (x * 10000) : ℚ) / 10000

/-- Stages of `predict_ticket`, in source order, used to record which parts
of the pipeline a call reaches. -/
inductive Stage where
  | loadArtifacts
  | normalize
  | vectorize
  | predictCategory
  | predictPriority
  | extractEntities
deriving Repr, DecidableEq

/-- Failures of `predict_ticket`: the `FileNotFoundError` from
`_load_models` (the spec's `ModelsUnavailable`) and the
`ValueError("Input text is empty.")` (the spec's `InvalidInput`). -/
inductive PredictError where
  | modelsNotFound
  | invalidInput
deriving Repr, DecidableEq

/-- The dictionary `predict_ticket` returns. -/
structure PredictionResult where
  title : String
  description : String
  category : String
  priority : String
  entities : EntityBundle
  confidence_score : ℚ
deriving DecidableEq

/-- The process environment `predict_ticket` runs in: whether the three
artifact files exist, the loaded models, and the external functions —
spaCy preprocessing (`_preprocess_single`), the TF-IDF transform, the
spaCy ORG/PRODUCT/GPE entity texts per input, and `np.exp`. -/
structure Env (Vec : Type) where
  artifactsPresent : Bool
  preprocess : String → String
  transform : String → Vec
  categoryModel : MLModel Vec
  priorityModel : MLModel Vec
  nerSystems : String → List String
  expF : ℚ → ℚ

/-- Embeds `predict_ticket` from `ml/predict.py`, also recording the
stages the call reaches.  Source order: `_load_models()` first, then the
`text.strip()` emptiness check, then preprocessing of the stripped text,
vectorization, the two classifications, entity extraction over the raw
text, and `round(float(min(cat_conf, pri_conf)), 4)`.  The title and the
description are built from the raw `text`. -/
def predictTicket {Vec : Type} (env : Env Vec) (text : String) :
    Except PredictError PredictionResult × List Stage :=
  if env.artifactsPresent = false then (.error .modelsNotFound, [.loadArtifacts])
  else
    let cleanText := pyStrip text
    if cleanText = "" then (.error .invalidInput, [.loadArtifacts])
    else
      let preprocessed := env.preprocess cleanText
      let v := env.transform preprocessed
      let catRes := predictWithConfidence env.expF env.categoryModel v
      let priRes := predictWithConfidence env.expF env.priorityModel v
      let ents := extractEntities text (env.nerSystems text)
      let confidence := qmin catRes.2 priRes.2
      (.ok { title := shortTitle text
             description := text
             category := catRes.1
             priority := priRes.1
             entities := ents
             confidence_score := round4 confidence },
       [.loadArtifacts, .normalize, .vectorize, .predictCategory,
        .predictPriority, .extractEntities])

/-- The category confidence `predict_ticket` computes for a text
(the second component of `_predict_with_confidence` on the category
model at the transformed, preprocessed, stripped text). -/
def catConfOf {Vec : Type} (env : Env Vec) (text : String) : ℚ :=
  (predictWithConfidence env.expF env.categoryModel
    (env.transform (env.preprocess (pyStrip text)))).2

/-- The priority confidence `predict_ticket` computes for a text. -/
def priConfOf {Vec : Type} (env : Env Vec) (text : String) : ℚ :=
  (predictWithConfidence env.expF env.priorityModel
    (env.transform (env.preprocess (pyStrip text)))).2

/-- A row of `data/tickets.csv` as pandas sees it: each required cell is
present or NaN (`none`). -/
structure Row where
  text : Option String
  category : Option String
  priority : Option String
deriving DecidableEq

/-- A row surviving `dropna`: all three required cells present. -/
structure CleanRow where
  text : String
  category : String
  priority : String
deriving DecidableEq

/-- The loaded dataframe: its column list and its rows. -/
structure Frame where
  cols : List String
  rows : List Row

/-- Failures of `ml/train.py`'s `main`.  The code defines no exception of
its own: a missing column raises pandas `KeyError` inside `dropna`, and an
empty corpus raises sklearn `ValueError` inside `train_test_split`.  The
constructor `trainingDataError` names the exception the spec claims
(`TrainingDataError`); the embedded code never produces it, mirroring the
absence of any such class in the repository. -/
inductive TrainError where
  | datasetNotFound
  | keyError : String → TrainError
  | valueErrorSplit
  | trainingDataError
deriving Repr, DecidableEq

/-- Stages of `main` in `ml/train.py`, in source order, up to the point
where classifiers are fit. -/
inductive TrainStage where
  | loadData
  | dropInvalid
  | preprocessTexts
  | splitData
  | fitVectorizer
  | fitClassifiers
deriving Repr, DecidableEq

/-- Embeds `df.dropna(subset=["text", "category", "priority"])`: pandas
raises `KeyError` when a subset column is absent, else drops every row
with a missing cell among the three. -/
def dropnaSubset (f : Frame) : Except TrainError (List CleanRow) :=
  if "text" ∉ f.cols then .error (.keyError "text")
  else if "category" ∉ f.cols then .error (.keyError "category")
  else if "priority" ∉ f.cols then .error (.keyError "priority")
  else .ok (f.rows.filterMap fun r =>
    match r.text, r.category, r.priority with
    | some t, some c, some p => some ⟨t, c, p⟩
    | _, _, _ => none)

/-- The arguments `main` passes to `train_test_split` (lines 228–235):
`test_size=0.2`, `random_state=42`, and `stratify=df["category"].values`.
One call splits the text column and both label columns together. -/
structure SplitSpec where
  testSize : ℚ
  seed : Nat
  stratifyKey : List String
deriving DecidableEq

/-- The split specification `main` builds from the filtered corpus: the
single stratification key is the category column, for both tasks. -/
def mainSplitCall (rows : List CleanRow) : SplitSpec :=
  { testSize := 1 / 5, seed := 42, stratifyKey := rows.map (·.category) }

/-- Embeds the load-and-split phase of `main` (lines 213–235) with a stage
trace.  `frame` is `none` when `data/tickets.csv` does not exist.
`preprocess` abstracts the spaCy lemmatization of `preprocess_texts`.
After `dropna` the code runs preprocessing unconditionally — there is no
emptiness check — and an empty corpus only fails inside
`train_test_split`, which sklearn rejects with `ValueError` because the
resulting train set would be empty.  Classifier fitting comes strictly
later. -/
def mainLoadPhase :
    Option Frame → (String → String) →
      Except TrainError (List CleanRow × SplitSpec) × List TrainStage
  | none, _ => (.error .datasetNotFound, [])
  | some f, preprocess =>
    match dropnaSubset f with
    | .error e => (.error e, [.loadData])
    | .ok rows =>
      let cleaned := rows.map fun r => { r with text := preprocess r.text }
      if cleaned.isEmpty then
        (.error .valueErrorSplit, [.loadData, .dropInvalid, .preprocessTexts])
      else
        (.ok (cleaned, mainSplitCall cleaned),
         [.loadData, .dropInvalid, .preprocessTexts, .splitData])

/-- Per-candidate held-out metrics, one entry of `metrics_per_model`
in `train_and_evaluate_models` (keys follow dict insertion order:
LogisticRegression, RandomForest, LinearSVM). -/
structure CandMetrics where
  name : String
  accuracy : ℚ
  f1 : ℚ

/-- Python `max(items, key=...)` keeps the first maximal element: a fold
replacing the champion only on a strictly larger weighted F1. -/
def maxByF1 (m : CandMetrics) (ms : List CandMetrics) : CandMetrics :=
  ms.foldl (fun b x => if b.f1 < x.f1 then x else b) m

/-- Embeds the best-model choice of `train_and_evaluate_models`
(lines 124–127): the first candidate with maximal weighted F1, in dict
order ("" on an empty roster, which cannot occur). -/
def bestModelName (ms : List CandMetrics) : String :=
  match ms with
  | [] => ""
  | m :: rest => (maxByF1 m rest).name

/-- Embeds the tuning-target choice of `main` (lines 255–264):
`"LogisticRegression" if "LogisticRegression" in metrics else
list(metrics.keys())[0]` — a constant choice, independent of which
candidate won. -/
def bestForTuning (metricsNames : List String) : String :=
  if "LogisticRegression" ∈ metricsNames then "LogisticRegression"
  else metricsNames.headD ""

/-- A deployable estimator as `_choose_deploy_model` handles it: its class
name and whether it exposes `predict_proba`. -/
structure DeployModel where
  name : String
  hasProba : Bool
deriving DecidableEq

/-- Whether a roster family exposes `predict_proba`: LogisticRegression
and RandomForest do, LinearSVC does not. -/
def rosterHasProba : String → Bool
  | "LogisticRegression" => true
  | "RandomForest" => true
  | _ => false

/-- Python `max(candidates, key=lambda t: t[0])` over `(f1, name)` pairs:
first pair with strictly maximal first component. -/
def maxByFst (c : ℚ × String) (cs : List (ℚ × String)) : ℚ × String :=
  cs.foldl (fun b x => if b.1 < x.1 then x else b) c

/-- Embeds `_choose_deploy_model` from `ml/train.py` (lines 276–308).
`tuned` is the GridSearchCV best estimator; `metricsNames` the keys of the
task's metrics dict; `evalF1 n` the weighted F1 on the held-out split of a
family-`n` clone refit on the training split (the code recomputes it; with
deterministic fitting it equals the original roster entry's F1).  If the
tuned model exposes `predict_proba` it is deployed; otherwise the
probability-capable roster families present in the metrics are refit and
the one with the highest recomputed F1 is deployed (the tuned model again
if that candidate list is empty, which cannot occur in `main`). -/
def chooseDeployModel (tuned : DeployModel) (metricsNames : List String)
    (evalF1 : String → ℚ) (taskLabel : String) : DeployModel × String :=
  if tuned.hasProba then
    (tuned, taskLabel ++ "-Tuned-" ++ tuned.name)
  else
    let names := ["LogisticRegression", "RandomForest"].filter
      (· ∈ metricsNames)
    let candidates := names.map fun n => (evalF1 n, n)
    match candidates with
    | [] => (tuned, taskLabel ++ "-Tuned-" ++ tuned.name)
    | c :: cs =>
      let best := maxByFst c cs
      ({ name := best.2, hasProba := rosterHasProba best.2 },
       taskLabel ++ "-Deploy-" ++ best.2)

end TicketML

namespace TicketML

/-- Concrete environment over `Vec = Unit` with trivial models, used by
closed instantiations. -/
def trivialModel : MLModel Unit :=
  { hasProba := false
    probaOf := fun _ => []
    classes := []
    predictOf := fun _ => ""
    hasDecision := false
    decisionOf := fun _ => .arr [] }

/-- Environment with artifacts present and trivial models. -/
def env₀ : Env Unit :=
  { artifactsPresent := true
    preprocess := id
    transform := fun _ => ()
    categoryModel := trivialModel
    priorityModel := trivialModel
    nerSystems := fun _ => []
    expF := fun _ => 1 }

/-- A probability-capable category model with a genuine two-class
distribution, for closed instantiations. -/
def probaModel : MLModel Unit :=
  { trivialModel with
    hasProba := true
    probaOf := fun _ => [3 / 5, 2 / 5]
    classes := ["Network", "Software"] }

/-- Environment whose category model returns probabilities. -/
def env₃ : Env Unit := { env₀ with categoryModel := probaModel }

/-- A nine-class probability model whose maximal class probability is
0.12348: a valid distribution (the entries are non-negative and sum to 1)
whose maximum rounds up at four decimals. -/
def lowConfModel : MLModel Unit :=
  { trivialModel with
    hasProba := true
    probaOf := fun _ =>
      12348 / 100000 :: List.replicate 8 (109565 / 1000000)
    classes := ["c0", "c1", "c2", "c3", "c4", "c5", "c6", "c7", "c8"] }

/-- Environment exhibiting a rounded overall confidence that exceeds the
unrounded minimum of the two task confidences. -/
def env₄ : Env Unit := { env₀ with categoryModel := lowConfModel }

/-- A frame with the three required columns whose single row is invalid
(NaN text), so the corpus is empty after filtering. -/
def nullRowFrame : Frame :=
  { cols := ["text", "category", "priority"]
    rows := [{ text := none, category := some "Network", priority := some "High" }] }

/-- A frame missing the `category` column. -/
def missingColFrame : Frame :=
  { cols := ["text", "priority"]
    rows := [] }

/-- Held-out metrics where the tree ensemble, not the linear probabilistic
family, has the best weighted F1. -/
def metricsRFBest : List CandMetrics :=
  [⟨"LogisticRegression", 7 / 10, 1 / 2⟩,
   ⟨"RandomForest", 8 / 10, 9 / 10⟩,
   ⟨"LinearSVM", 6 / 10, 7 / 10⟩]

/-- Two valid corpus rows whose category labels differ from their priority
labels. -/
def rowsTwo : List CleanRow :=
  [⟨"vpn is down", "Network", "High"⟩, ⟨"excel crashes", "Software", "Low"⟩]

/-- A frame loading exactly `rowsTwo`. -/
def frameTwo : Frame :=
  { cols := ["text", "category", "priority"]
    rows := [{ text := some "vpn is down", category := some "Network", priority := some "High" },
             { text := some "excel crashes", category := some "Software", priority := some "Low" }] }

/-- The result `predict_ticket` produces in `env₃` on `"hello"`. -/
def resHello : PredictionResult :=
  { title := "hello"
    description := "hello"
    category := "Network"
    priority := ""
    entities := { error_codes := [], ip_addresses := [], usernames := [], systems := [] }
    confidence_score := 3 / 5 }

/-- The result `predict_ticket` produces in `env₄` on `"pw"`: the rounded
confidence 0.1235 exceeds the exact minimum 0.12348. -/
def resPw : PredictionResult :=
  { title := "pw"
    description := "pw"
    category := "c0"
    priority := ""
    entities := { error_codes := [], ip_addresses := [], usernames := [], systems := [] }
    confidence_score := 1235 / 10000 }

/-- The result `predict_ticket` produces in `env₀` on `" x y "`: the raw
text is kept verbatim in the description while the title is trimmed. -/
def resXy : PredictionResult :=
  { title := "x y"
    description := " x y "
    category := ""
    priority := ""
    entities := { error_codes := [], ip_addresses := [], usernames := [], systems := [] }
    confidence_score := 1 }

/-- The result `predict_ticket` produces in `env₀` on `"abc"`. -/
def resAbc : PredictionResult :=
  { title := "abc"
    description := "abc"
    category := ""
    priority := ""
    entities := { error_codes := [], ip_addresses := [], usernames := [], systems := [] }
    confidence_score := 1 }

end TicketML

namespace TicketML

/-- The contract `predict_ticket` relies on for a fitted estimator:
`predict_proba` returns a non-empty vector of probabilities in `[0, 1]`,
and `decision_function`, when it returns an array, returns a non-empty
one (`np.argmax`, `np.min` and `np.max` reject empty arrays). -/
def MLModel.WellFormed {Vec : Type} (m : MLModel Vec) : Prop :=
  (m.hasProba = true →
    ∀ v, m.probaOf v ≠ [] ∧ ∀ q ∈ m.probaOf v, 0 ≤ q ∧ q ≤ 1) ∧
  (m.hasProba = false → m.hasDecision = true →
    ∀ v scores, m.decisionOf v = .arr scores → scores ≠ [])

lemma sortedDedup_nodup (l : List String) : (sortedDedup l).Nodup :=
  (List.perm_insertionSort (· ≤ ·) l.dedup).nodup_iff.mpr l.nodup_dedup

lemma sortedDedup_sorted (l : List String) :
    List.Sorted (· ≤ ·) (sortedDedup l) :=
  List.sorted_insertionSort (· ≤ ·) l.dedup

lemma mem_sortedDedup {x : String} {l : List String} :
    x ∈ sortedDedup l ↔ x ∈ l :=
  ((List.perm_insertionSort (· ≤ ·) l.dedup).mem_iff).trans (List.mem_dedup)

lemma getElem_opt_eq_head_drop (cs : List Char) (i : Nat) :
    cs[i]? = (cs.drop i).head? := by
  induction cs generalizing i with
  | nil => simp
  | cons c t ih =>
    cases i with
    | zero => simp
    | succ n => rw [List.getElem?_cons_succ, List.drop_succ_cons]; exact ih n

lemma head_opt_take {l : List Char} {n : Nat} (h : 1 ≤ n) :
    (l.take n).head? = l.head? := by
  cases l <;> cases n <;> simp_all

lemma sub_head {cs : List Char} {i len : Nat} (h : 1 ≤ len) :
    (sub cs i len).data.head? = cs[i]? := by
  show ((cs.drop i).take len).head? = cs[i]?
  rw [head_opt_take h, getElem_opt_eq_head_drop]

lemma runFrom_pos {p : Char → Bool} {cs : List Char} {i : Nat}
    (h : 1 ≤ runFrom p cs i) : ∃ c, cs[i]? = some c ∧ p c = true := by
  rw [runFrom] at h
  rw [getElem_opt_eq_head_drop]
  cases hd : cs.drop i with
  | nil => rw [hd] at h; simp at h
  | cons c t =>
    rw [hd] at h
    by_cases hp : p c = true
    · exact ⟨c, by simp, hp⟩
    · rw [List.takeWhile_cons_of_neg (by simp [hp])] at h; simp at h

lemma alpha_not_digit {c : Char} (ha : c.isAlpha = true)
    (hd : c.isDigit = true) : False := by
  simp only [Char.isDigit, Char.isAlpha, Char.isUpper, Char.isLower,
    Bool.and_eq_true, Bool.or_eq_true, decide_eq_true_eq] at ha hd
  obtain ⟨hd1, hd2⟩ := hd
  rcases ha with ⟨hu1, hu2⟩ | ⟨hl1, hl2⟩
  · exact absurd (UInt32.le_trans hu1 hd2) (by decide)
  · exact absurd (UInt32.le_trans hl1 hd2) (by decide)

lemma matchUsername_head {cs : List Char} {i : Nat} {s : String} {j : Nat}
    (h : matchUsername cs i = some (s, j)) :
    ∃ c, s.data.head? = some c ∧ c.isAlpha = true := by
  unfold matchUsername at h
  split at h
  case isTrue hcond =>
    obtain ⟨hb, ha⟩ := hcond
    cases hc : cs[i]? with
    | none => rw [hc] at ha; simp [Option.elim] at ha
    | some c =>
      rw [hc] at ha
      simp only [Option.elim] at ha
      cases hbl : bestLen cs (i + 1) (min 15 (runFrom isUserClassChar cs (i + 1))) with
      | none => simp [hbl] at h
      | some j₀ =>
        simp only [hbl, Option.some.injEq, Prod.mk.injEq] at h
        obtain ⟨hs, hj⟩ := h
        refine ⟨c, ?_, ha⟩
        rw [← hs, sub_head (by omega), hc]
  case isFalse => simp at h

lemma afterMarker_head {cs : List Char} {k : Nat} {s : String} {j : Nat}
    (h : afterMarker cs k = some (s, j)) :
    ∃ c, s.data.head? = some c ∧ c.isAlpha = true := by
  unfold afterMarker at h
  exact matchUsername_head h

lemma matchMarker_head {cs : List Char} {i : Nat} {s : String} {j : Nat}
    (h : matchMarker cs i = some (s, j)) :
    ∃ c, s.data.head? = some c ∧ c.isAlpha = true := by
  unfold matchMarker at h
  by_cases h4c : litAtCI cs i ['u', 's', 'e', 'r'] = true
  · rw [if_pos h4c] at h
    cases h4 : afterMarker cs (i + 4) with
    | some res =>
      rw [h4] at h
      injection h with h₁
      rw [h₁] at h4
      exact afterMarker_head h4
    | none =>
      rw [h4] at h
      by_cases h8c : litAtCI cs i ['u', 's', 'e', 'r', 'n', 'a', 'm', 'e'] = true
      · rw [if_pos h8c] at h
        exact afterMarker_head h
      · rw [if_neg h8c] at h
        cases h
  · rw [if_neg h4c] at h
    cases h

lemma ipGroup_first {cs : List Char} {i a : Nat} (h : ipGroup cs i = some a) :
    ∃ c, cs[i]? = some c ∧ c.isDigit = true := by
  simp only [ipGroup] at h
  split at h
  case isTrue hcond => exact runFrom_pos hcond.1
  case isFalse => simp at h

lemma ipGroup_lt {cs : List Char} {i a : Nat} (h : ipGroup cs i = some a) :
    i < a := by
  simp only [ipGroup] at h
  split at h
  case isTrue => simp only [Option.some.injEq] at h; omega
  case isFalse => simp at h

lemma matchIp_head {cs : List Char} {i : Nat} {s : String} {j : Nat}
    (h : matchIp cs i = some (s, j)) :
    ∃ c, s.data.head? = some c ∧ c.isDigit = true := by
  unfold matchIp at h
  split at h
  case isTrue =>
    rw [Option.bind_eq_some] at h
    obtain ⟨a, h1, h⟩ := h
    rw [Option.bind_eq_some] at h
    obtain ⟨b, h2, h⟩ := h
    rw [Option.bind_eq_some] at h
    obtain ⟨c₀, h3, h⟩ := h
    simp only [ipLast] at h
    split at h
    case isTrue =>
      simp only [Option.some.injEq, Prod.mk.injEq] at h
      obtain ⟨hs, hj⟩ := h
      obtain ⟨c, hc, hd⟩ := ipGroup_first h1
      have hia : i < a := ipGroup_lt h1
      have hab : a < b := ipGroup_lt h2
      have hbc : b < c₀ := ipGroup_lt h3
      refine ⟨c, ?_, hd⟩
      rw [← hs, sub_head (by omega), hc]
    case isFalse => simp at h
  case isFalse => simp at h

lemma scanAux_forall {f : Nat → Option (String × Nat)} {n : Nat}
    {P : String → Prop} (hf : ∀ i s j, f i = some (s, j) → P s) :
    ∀ fuel i s, s ∈ scanAux f n fuel i → P s := by
  intro fuel
  induction fuel with
  | zero => intro i s hs; simp [scanAux] at hs
  | succ fuel ih =>
    intro i s hs
    rw [scanAux] at hs
    by_cases hni : n ≤ i
    · rw [if_pos hni] at hs; simp at hs
    · rw [if_neg hni] at hs
      cases hfi : f i with
      | none => simp only [hfi] at hs; exact ih _ _ hs
      | some p =>
        obtain ⟨s₁, j⟩ := p
        simp only [hfi, List.mem_cons] at hs
        rcases hs with rfl | h2
        · exact hf i s j hfi
        · exact ih _ _ h2

lemma findAll_forall {f : List Char → Nat → Option (String × Nat)}
    {text : String} {P : String → Prop}
    (hf : ∀ cs i s j, f cs i = some (s, j) → P s) :
    ∀ s ∈ findAll f text, P s := by
  intro s hs
  exact scanAux_forall (fun i s j h => hf text.data i s j h) _ _ s hs

lemma usernames_head_alpha {text : String} {ner : List String} {s : String}
    (h : s ∈ (extractEntities text ner).usernames) :
    ∃ c, s.data.head? = some c ∧ c.isAlpha = true := by
  have h2 : s ∈ findAll matchMarker text ∨
      s ∈ (findAll matchUsername text).filter (fun s =>
        s.data.any Char.isDigit || s.data.any (· = '.') || s.data.any (· = '_')) := by
    simpa [extractEntities, mem_sortedDedup, List.mem_append] using h
  rcases h2 with hm | hg
  · exact findAll_forall (fun cs i s j hh => matchMarker_head hh) s hm
  · exact findAll_forall (fun cs i s j hh => matchUsername_head hh) s
      (List.mem_of_mem_filter hg)

lemma ips_head_digit {text : String} {ner : List String} {s : String}
    (h : s ∈ (extractEntities text ner).ip_addresses) :
    ∃ c, s.data.head? = some c ∧ c.isDigit = true := by
  have h2 : s ∈ findAll matchIp text := by
    simpa [extractEntities, mem_sortedDedup] using h
  exact findAll_forall (fun cs i s j hh => matchIp_head hh) s h2

end TicketML

namespace TicketML

/-- C9: for every input text (and any output of the statistical
recognizer), each of the four entity lists returned by `_extract_entities`
— error_codes, ip_addresses, usernames, systems — contains no duplicate
strings and is sorted in ascending order, because each is produced by
`sorted(set(v))`. -/
theorem extract_entities_lists_nodup_sorted (text : String) (ner : List String) :
    ((extractEntities text ner).error_codes.Nodup ∧
      List.Sorted (· ≤ ·) (extractEntities text ner).error_codes) ∧
    ((extractEntities text ner).ip_addresses.Nodup ∧
      List.Sorted (· ≤ ·) (extractEntities text ner).ip_addresses) ∧
    ((extractEntities text ner).usernames.Nodup ∧
      List.Sorted (· ≤ ·) (extractEntities text ner).usernames) ∧
    ((extractEntities text ner).systems.Nodup ∧
      List.Sorted (· ≤ ·) (extractEntities text ner).systems) :=
  ⟨⟨sortedDedup_nodup _, sortedDedup_sorted _⟩,
   ⟨sortedDedup_nodup _, sortedDedup_sorted _⟩,
   ⟨sortedDedup_nodup _, sortedDedup_sorted _⟩,
   ⟨sortedDedup_nodup _, sortedDedup_sorted _⟩⟩

/-- C8 counterexample: on the input "ORA-1234" the token `ORA-1234` is
captured as an error code and is nevertheless also added to the usernames
list (the code applies no "not already captured" filter), so the returned
usernames set is not disjoint from the error_codes set. -/
theorem username_error_code_overlap :
    "ORA-1234" ∈ (extractEntities "ORA-1234" []).usernames ∧
    "ORA-1234" ∈ (extractEntities "ORA-1234" []).error_codes := by
  decide

/-- C8 amended: identifier-shaped tokens are appended to usernames without
any check against previously captured entities, so usernames may overlap
error_codes; the usernames list is, however, always disjoint from the
ip_addresses list, because every username match starts with a letter while
every IPv4 match starts with a digit. -/
theorem usernames_disjoint_from_ips (text : String) (ner : List String) :
    ∀ s ∈ (extractEntities text ner).usernames,
      s ∉ (extractEntities text ner).ip_addresses := by
  intro s hu hip
  obtain ⟨c, hc, halpha⟩ := usernames_head_alpha hu
  obtain ⟨c₂, hc₂, hdigit⟩ := ips_head_digit hip
  rw [hc] at hc₂
  injection hc₂ with hcc
  rw [← hcc] at hdigit
  exact alpha_not_digit halpha hdigit

/-- Witness for C8 (amended): `jdoe99` is an identifier-shaped username
and is absent from the IP list. -/
theorem usernames_disjoint_from_ips_witness :
    "jdoe99" ∈ (extractEntities "jdoe99" []).usernames ∧
    "jdoe99" ∉ (extractEntities "jdoe99" []).ip_addresses :=
  ⟨by decide, usernames_disjoint_from_ips "jdoe99" [] "jdoe99" (by decide)⟩

end TicketML

namespace TicketML

lemma le_foldl_max (xs : List ℚ) (a : ℚ) : a ≤ xs.foldl max a := by
  induction xs generalizing a with
  | nil => exact le_refl a
  | cons x xs ih => exact le_trans (le_max_left a x) (ih (max a x))

lemma mem_le_foldl_max {x : ℚ} {xs : List ℚ} (a : ℚ) (h : x ∈ xs) :
    x ≤ xs.foldl max a := by
  induction xs generalizing a with
  | nil => cases h
  | cons y ys ih =>
    rcases List.mem_cons.mp h with rfl | hmem
    · exact le_trans (le_max_right a x) (le_foldl_max ys (max a x))
    · exact ih (max a y) hmem

lemma foldl_max_mem (xs : List ℚ) (a : ℚ) : xs.foldl max a ∈ a :: xs := by
  induction xs generalizing a with
  | nil => exact List.mem_singleton.mpr rfl
  | cons x xs ih =>
    have h := ih (max a x)
    rcases List.mem_cons.mp h with heq | hmem
    · rcases max_choice a x with hc | hc <;> rw [List.foldl_cons, heq, hc] <;> simp
    · exact List.mem_cons_of_mem a (List.mem_cons_of_mem x hmem)

lemma foldl_min_le (xs : List ℚ) (a : ℚ) : xs.foldl min a ≤ a := by
  induction xs generalizing a with
  | nil => exact le_refl a
  | cons x xs ih => exact le_trans (ih (min a x)) (min_le_left a x)

lemma foldl_min_le_mem {x : ℚ} {xs : List ℚ} (a : ℚ) (h : x ∈ xs) :
    xs.foldl min a ≤ x := by
  induction xs generalizing a with
  | nil => cases h
  | cons y ys ih =>
    rcases List.mem_cons.mp h with rfl | hmem
    · exact le_trans (foldl_min_le ys (min a x)) (min_le_right a x)
    · exact ih (min a y) hmem

lemma le_listMax {x : ℚ} {l : List ℚ} (h : x ∈ l) : x ≤ listMax l := by
  cases l with
  | nil => cases h
  | cons y ys =>
    rcases List.mem_cons.mp h with rfl | hmem
    · exact le_foldl_max ys x
    · exact mem_le_foldl_max y hmem

lemma listMax_mem {l : List ℚ} (h : l ≠ []) : listMax l ∈ l := by
  cases l with
  | nil => exact absurd rfl h
  | cons y ys => exact foldl_max_mem ys y

lemma listMin_le {x : ℚ} {l : List ℚ} (h : x ∈ l) : listMin l ≤ x := by
  cases l with
  | nil => cases h
  | cons y ys =>
    rcases List.mem_cons.mp h with rfl | hmem
    · exact foldl_min_le ys x
    · exact foldl_min_le_mem y hmem

lemma argmaxAux_cases (xs : List ℚ) :
    ∀ (i best : Nat) (bv : ℚ), argmaxAux xs i best bv = best ∨
      (i ≤ argmaxAux xs i best bv ∧ argmaxAux xs i best bv < i + xs.length) := by
  induction xs with
  | nil => intro i best bv; exact Or.inl rfl
  | cons x xs ih =>
    intro i best bv
    rw [argmaxAux]
    by_cases hlt : bv < x
    · rw [if_pos hlt]
      rcases ih (i + 1) i x with h | ⟨h1, h2⟩
      · right; simp only [List.length_cons, h]; omega
      · right; simp only [List.length_cons]; omega
    · rw [if_neg hlt]
      rcases ih (i + 1) best bv with h | ⟨h1, h2⟩
      · exact Or.inl h
      · right; simp only [List.length_cons]; omega

lemma argmax_lt_length {l : List ℚ} (h : l ≠ []) : argmax l < l.length := by
  cases l with
  | nil => exact absurd rfl h
  | cons x xs =>
    rw [argmax]
    rcases argmaxAux_cases xs 1 0 x with heq | ⟨h1, h2⟩
    · rw [heq]; simp
    · simp only [List.length_cons]; omega

lemma predictWithConfidence_unit {Vec : Type} (expF : ℚ → ℚ)
    (hexp : ∀ x, 0 < expF x) (m : MLModel Vec) (hm : m.WellFormed) (v : Vec) :
    0 ≤ (predictWithConfidence expF m v).2 ∧
      (predictWithConfidence expF m v).2 ≤ 1 := by
  unfold predictWithConfidence
  by_cases hp : m.hasProba = true
  · rw [if_pos hp]
    dsimp only
    obtain ⟨hne, hbounds⟩ := hm.1 hp v
    have hlt : argmax (m.probaOf v) < (m.probaOf v).length := argmax_lt_length hne
    have hmem : (m.probaOf v).getD (argmax (m.probaOf v)) 0 ∈ m.probaOf v := by
      rw [List.getD_eq_getElem _ _ hlt]
      exact List.getElem_mem hlt
    exact hbounds _ hmem
  · rw [if_neg hp]
    have hp₂ : m.hasProba = false := by
      cases hval : m.hasProba
      · rfl
      · exact absurd hval hp
    by_cases hd : m.hasDecision = true
    · rw [if_pos hd]
      cases hdec : m.decisionOf v with
      | arr scores =>
        dsimp only
        have hne : scores ≠ [] := hm.2 hp₂ hd v scores hdec
        have hnorm : (scores.map fun x =>
            (x - listMin scores) /
              (listMax scores - listMin scores + 1 / 1000000000)) ≠ [] := by
          simpa using hne
        have hmem := listMax_mem hnorm
        obtain ⟨x, hx, hval⟩ := List.mem_map.mp hmem
        have hmn : listMin scores ≤ x := listMin_le hx
        have hmx : x ≤ listMax scores := le_listMax hx
        have hmnx : listMin scores ≤ listMax scores :=
          le_trans hmn hmx
        have hdpos : 0 < listMax scores - listMin scores + 1 / 1000000000 := by
          linarith
        constructor
        · rw [← hval]
          exact div_nonneg (by linarith) (le_of_lt hdpos)
        · rw [← hval]
          rw [div_le_one hdpos]
          linarith
      | scalar s =>
        dsimp only
        have he := hexp (-s)
        have hpos : (0 : ℚ) < 1 + expF (-s) := by linarith
        constructor
        · exact le_of_lt (div_pos one_pos hpos)
        · rw [div_le_one hpos]; linarith
    · rw [if_neg hd]
      exact ⟨by norm_num, le_refl 1⟩

lemma roundHalfEven_nonneg {x : ℚ} (h : 0 ≤ x) : 0 ≤ roundHalfEven x := by
  have hn : 0 ≤ ⌊x⌋ := Int.floor_nonneg.mpr h
  simp only [roundHalfEven]
  split_ifs <;> omega

lemma roundHalfEven_le_int {x : ℚ} {N : ℤ} (h : x ≤ (N : ℚ)) :
    roundHalfEven x ≤ N := by
  have hn : ⌊x⌋ ≤ N := by
    have := Int.floor_le_floor h
    rwa [Int.floor_intCast] at this
  simp only [roundHalfEven]
  split_ifs with h1 h2 h3
  · exact hn
  · by_cases heq : ⌊x⌋ = N
    · exfalso
      rw [heq] at h2
      have hle : x - (N : ℚ) ≤ 0 := by linarith
      linarith
    · omega
  · exact hn
  · by_cases heq : ⌊x⌋ = N
    · exfalso
      push_neg at h1
      rw [heq] at h1
      linarith
    · omega

lemma roundHalfEven_le_add_half (x : ℚ) : (roundHalfEven x : ℚ) ≤ x + 1 / 2 := by
  have hfl : (⌊x⌋ : ℚ) ≤ x := Int.floor_le x
  simp only [roundHalfEven]
  split_ifs with h1 h2 h3
  · linarith
  · push_cast; linarith
  · linarith
  · push_neg at h1
    push_cast
    linarith

lemma round4_nonneg {x : ℚ} (h : 0 ≤ x) : 0 ≤ round4 x := by
  unfold round4
  have h10 : 0 ≤ x * 10000 := by linarith
  have := roundHalfEven_nonneg h10
  positivity

lemma round4_le_one {x : ℚ} (h : x ≤ 1) : round4 x ≤ 1 := by
  unfold round4
  have h10 : x * 10000 ≤ ((10000 : ℤ) : ℚ) := by push_cast; linarith
  have hr := roundHalfEven_le_int h10
  rw [div_le_one (by norm_num)]
  exact_mod_cast hr

lemma round4_le_add (x : ℚ) : round4 x ≤ x + 1 / 20000 := by
  unfold round4
  have hr := roundHalfEven_le_add_half (x * 10000)
  rw [div_le_iff₀ (by norm_num : (0 : ℚ) < 10000)]
  linarith

end TicketML

namespace TicketML

lemma qmin_eq_min (a b : ℚ) : qmin a b = min a b := by
  rw [qmin, min_def]

lemma predictTicket_ok {Vec : Type} (env : Env Vec) (text : String)
    (hart : env.artifactsPresent = true) (hne : pyStrip text ≠ "") :
    predictTicket env text =
      (.ok { title := shortTitle text
             description := text
             category := (predictWithConfidence env.expF env.categoryModel
               (env.transform (env.preprocess (pyStrip text)))).1
             priority := (predictWithConfidence env.expF env.priorityModel
               (env.transform (env.preprocess (pyStrip text)))).1
             entities := extractEntities text (env.nerSystems text)
             confidence_score := round4 (min (catConfOf env text) (priConfOf env text)) },
       [.loadArtifacts, .normalize, .vectorize, .predictCategory,
        .predictPriority, .extractEntities]) := by
  unfold predictTicket catConfOf priConfOf
  rw [hart]
  simp [hne, qmin_eq_min]

lemma trivialModel_wf : trivialModel.WellFormed := by
  constructor
  · intro h; exact absurd h (by decide)
  · intro _ h; exact absurd h (by decide)

lemma probaModel_wf : probaModel.WellFormed := by
  constructor
  · intro _ v
    constructor
    · simp [probaModel, trivialModel]
    · intro q hq
      simp only [probaModel, trivialModel, List.mem_cons, List.not_mem_nil,
        or_false] at hq
      rcases hq with rfl | rfl <;> norm_num
  · intro h; exact absurd h (by decide)

/-- C1 (amended): with artifacts available, every blank or whitespace-only
input makes `predict_ticket` fail with the empty-input error
(`InvalidInput`), and the only stage the call reaches is artifact loading:
`_load_models()` runs before the validation, while normalization,
vectorization, the two models and entity extraction are never reached. -/
theorem predict_blank_invalid_after_load {Vec : Type} (env : Env Vec)
    (text : String) (hart : env.artifactsPresent = true)
    (hblank : pyStrip text = "") :
    predictTicket env text = (.error .invalidInput, [Stage.loadArtifacts]) := by
  unfold predictTicket
  rw [hart]
  simp [hblank]

/-- Witness for C1: the two-space input in the concrete environment. -/
theorem predict_blank_invalid_after_load_witness :
    predictTicket env₀ "  " = (.error .invalidInput, [Stage.loadArtifacts]) :=
  predict_blank_invalid_after_load env₀ "  " rfl (by decide)

/-- C1 counterexample: on a whitespace-only input the call does fail with
the empty-input error, but artifact loading has already run — the trace
contains the artifact-loading stage, contradicting the claim that no
further stage (artifact loading included) is reached. -/
theorem blank_input_reaches_artifact_loading :
    (predictTicket env₀ " ").1 = .error .invalidInput ∧
    Stage.loadArtifacts ∈ (predictTicket env₀ " ").2 := by
  constructor
  · rfl
  · decide

/-- C10: for every non-empty input in any environment with artifacts, the
returned description is the raw input string verbatim (leading and
trailing whitespace included), the title is built from the raw text by
`_short_title`, and entity extraction runs on the raw text; the stripped
text feeds only the classification path. -/
theorem predict_uses_raw_text {Vec : Type} (env : Env Vec) (text : String)
    (hart : env.artifactsPresent = true) (hne : pyStrip text ≠ "") :
    ∃ r, (predictTicket env text).1 = .ok r ∧
      r.description = text ∧
      r.title = shortTitle text ∧
      r.entities = extractEntities text (env.nerSystems text) ∧
      r.category = (predictWithConfidence env.expF env.categoryModel
        (env.transform (env.preprocess (pyStrip text)))).1 :=
  ⟨_, by rw [predictTicket_ok env text hart hne], rfl, rfl, rfl, rfl⟩

/-- Witness for C10: a raw input with leading and trailing whitespace; the
description keeps both spaces, the title does not. -/
theorem predict_uses_raw_text_witness :
    resXy.description = " x y " ∧ resXy.title = shortTitle " x y " ∧
    resXy.entities = extractEntities " x y " (env₀.nerSystems " x y ") := by
  obtain ⟨r, hr, hdesc, htitle, hents, hcat⟩ :=
    predict_uses_raw_text env₀ " x y " rfl (by decide)
  have hcatc : catConfOf env₀ " x y " = 1 := by
    norm_num [catConfOf, predictWithConfidence, env₀, trivialModel]
  have hpric : priConfOf env₀ " x y " = 1 := by
    norm_num [priConfOf, predictWithConfidence, env₀, trivialModel]
  have hok : (predictTicket env₀ " x y ").1 = .ok resXy := by
    rw [predictTicket_ok env₀ " x y " rfl (by decide)]
    have htitle₂ : shortTitle " x y " = "x y" := by decide
    have hents₂ : extractEntities " x y " (env₀.nerSystems " x y ") =
        { error_codes := [], ip_addresses := [], usernames := [], systems := [] } := by
      decide
    have hconf : round4 (min (catConfOf env₀ " x y ") (priConfOf env₀ " x y ")) = 1 := by
      rw [hcatc, hpric]
      have hfl : ⌊((1 : ℚ)) * 10000⌋ = 10000 := by norm_num
      norm_num [round4, roundHalfEven, hfl]
    rw [htitle₂, hents₂, hconf]
    rfl
  rw [hok] at hr
  injection hr with hr
  rw [← hr] at hdesc htitle hents
  exact ⟨hdesc, htitle, hents⟩

end TicketML

namespace TicketML

/-- C3: for every non-empty input text in an environment with artifacts,
well-formed models (`predict_proba` yields a non-empty vector of
probabilities in `[0, 1]`; array decision scores are non-empty) and a
positive exponential, the returned `confidence_score` lies in `[0, 1]`.
The per-path bounds — maximum class probability, min-max-normalized
decision scores, sigmoid of a scalar margin, and the `1.0` default — are
established in `predictWithConfidence_unit`. -/
theorem predict_confidence_unit_interval {Vec : Type} (env : Env Vec)
    (text : String) (hart : env.artifactsPresent = true)
    (hne : pyStrip text ≠ "") (hexp : ∀ x, 0 < env.expF x)
    (hcat : env.categoryModel.WellFormed)
    (hpri : env.priorityModel.WellFormed) :
    ∀ r, (predictTicket env text).1 = .ok r →
      0 ≤ r.confidence_score ∧ r.confidence_score ≤ 1 := by
  intro r hr
  rw [predictTicket_ok env text hart hne] at hr
  injection hr with hr
  subst hr
  have hc := predictWithConfidence_unit env.expF hexp env.categoryModel hcat
    (env.transform (env.preprocess (pyStrip text)))
  have hp := predictWithConfidence_unit env.expF hexp env.priorityModel hpri
    (env.transform (env.preprocess (pyStrip text)))
  have hmin0 : 0 ≤ min (catConfOf env text) (priConfOf env text) :=
    le_min hc.1 hp.1
  have hmin1 : min (catConfOf env text) (priConfOf env text) ≤ 1 :=
    le_trans (min_le_left _ _) hc.2
  exact ⟨round4_nonneg hmin0, round4_le_one hmin1⟩

/-- Witness for C3: the probability path (maximum class probability 0.6)
combined with the default path (1.0); the rounded minimum is 0.6. -/
theorem predict_confidence_unit_interval_witness :
    0 ≤ resHello.confidence_score ∧ resHello.confidence_score ≤ 1 := by
  have hcat : catConfOf env₃ "hello" = 3 / 5 := by
    norm_num [catConfOf, predictWithConfidence, env₃, env₀, probaModel,
      trivialModel, argmax, argmaxAux]
  have hpri : priConfOf env₃ "hello" = 1 := by
    norm_num [priConfOf, predictWithConfidence, env₃, env₀, probaModel,
      trivialModel]
  have hok : (predictTicket env₃ "hello").1 = .ok resHello := by
    rw [predictTicket_ok env₃ "hello" rfl (by decide)]
    have htitle : shortTitle "hello" = "hello" := by decide
    have hclab : (predictWithConfidence env₃.expF env₃.categoryModel
        (env₃.transform (env₃.preprocess (pyStrip "hello")))).1 = "Network" := by
      norm_num [predictWithConfidence, env₃, env₀, probaModel, trivialModel,
        argmax, argmaxAux]
    have hplab : (predictWithConfidence env₃.expF env₃.priorityModel
        (env₃.transform (env₃.preprocess (pyStrip "hello")))).1 = "" := by
      norm_num [predictWithConfidence, env₃, env₀, probaModel, trivialModel]
    have hents : extractEntities "hello" (env₃.nerSystems "hello") =
        { error_codes := [], ip_addresses := [], usernames := [], systems := [] } := by
      decide
    have hconf : round4 (min (catConfOf env₃ "hello") (priConfOf env₃ "hello")) =
        3 / 5 := by
      rw [hcat, hpri]
      have hm : min ((3 : ℚ) / 5) 1 = 3 / 5 := by norm_num
      have hfl : ⌊((3 : ℚ) / 5) * 10000⌋ = 6000 := by norm_num [Int.floor_eq_iff]
      norm_num [hm, round4, roundHalfEven, hfl]
    rw [htitle, hclab, hplab, hents, hconf]
    rfl
  exact predict_confidence_unit_interval env₃ "hello" rfl (by decide)
    (fun x => one_pos) probaModel_wf trivialModel_wf resHello hok

/-- C4 (amended): the overall `confidence_score` equals
`round(min(category_confidence, priority_confidence), 4)`; the unrounded
aggregate never exceeds the weaker task confidence, and the returned
(rounded) value can exceed it by at most `5 × 10⁻⁵`. -/
theorem predict_confidence_round4_min {Vec : Type} (env : Env Vec)
    (text : String) (hart : env.artifactsPresent = true)
    (hne : pyStrip text ≠ "") :
    ∀ r, (predictTicket env text).1 = .ok r →
      r.confidence_score =
        round4 (min (catConfOf env text) (priConfOf env text)) ∧
      r.confidence_score ≤
        min (catConfOf env text) (priConfOf env text) + 1 / 20000 := by
  intro r hr
  rw [predictTicket_ok env text hart hne] at hr
  injection hr with hr
  subst hr
  exact ⟨rfl, round4_le_add _⟩

/-- Witness for C4 (amended): with both confidences equal to 1 the rounded
minimum is 1, within the stated tolerance. -/
theorem predict_confidence_round4_min_witness :
    resAbc.confidence_score =
      round4 (min (catConfOf env₀ "abc") (priConfOf env₀ "abc")) ∧
    resAbc.confidence_score ≤
      min (catConfOf env₀ "abc") (priConfOf env₀ "abc") + 1 / 20000 := by
  have hcat : catConfOf env₀ "abc" = 1 := by
    norm_num [catConfOf, predictWithConfidence, env₀, trivialModel]
  have hpri : priConfOf env₀ "abc" = 1 := by
    norm_num [priConfOf, predictWithConfidence, env₀, trivialModel]
  have hok : (predictTicket env₀ "abc").1 = .ok resAbc := by
    rw [predictTicket_ok env₀ "abc" rfl (by decide)]
    have htitle : shortTitle "abc" = "abc" := by decide
    have hents : extractEntities "abc" (env₀.nerSystems "abc") =
        { error_codes := [], ip_addresses := [], usernames := [], systems := [] } := by
      decide
    have hconf : round4 (min (catConfOf env₀ "abc") (priConfOf env₀ "abc")) = 1 := by
      rw [hcat, hpri]
      have hfl : ⌊((1 : ℚ)) * 10000⌋ = 10000 := by norm_num
      norm_num [round4, roundHalfEven, hfl]
    rw [htitle, hents, hconf]
    rfl
  exact predict_confidence_round4_min env₀ "abc" rfl (by decide) resAbc hok

/-- C4 counterexample: a nine-class probability distribution with maximal
probability 0.12348 (priority confidence 1.0) gives
`min = 0.12348` but a returned `confidence_score` of 0.1235 — rounding to
four decimals pushes the overall confidence above the weaker of the two
per-task confidences, refuting "never exceeds". -/
theorem round4_exceeds_weaker_confidence :
    ∃ r, (predictTicket env₄ "pw").1 = .ok r ∧
      r.confidence_score = 1235 / 10000 ∧
      min (catConfOf env₄ "pw") (priConfOf env₄ "pw") = 12348 / 100000 ∧
      min (catConfOf env₄ "pw") (priConfOf env₄ "pw") < r.confidence_score := by
  have hcat : catConfOf env₄ "pw" = 12348 / 100000 := by
    norm_num [catConfOf, predictWithConfidence, env₄, env₀, lowConfModel,
      trivialModel, argmax, argmaxAux, List.replicate]
  have hpri : priConfOf env₄ "pw" = 1 := by
    norm_num [priConfOf, predictWithConfidence, env₄, env₀, lowConfModel,
      trivialModel]
  have hmin : min (catConfOf env₄ "pw") (priConfOf env₄ "pw") = 12348 / 100000 := by
    rw [hcat, hpri]; norm_num
  have hconf : round4 (min (catConfOf env₄ "pw") (priConfOf env₄ "pw")) =
      1235 / 10000 := by
    rw [hmin]
    have hfl : ⌊((12348 : ℚ) / 100000) * 10000⌋ = 1234 := by
      norm_num [Int.floor_eq_iff]
    norm_num [round4, roundHalfEven, hfl]
  refine ⟨_, by rw [predictTicket_ok env₄ "pw" rfl (by decide)], ?_, hmin, ?_⟩
  · show round4 (min (catConfOf env₄ "pw") (priConfOf env₄ "pw")) = 1235 / 10000
    exact hconf
  · show min (catConfOf env₄ "pw") (priConfOf env₄ "pw") <
      round4 (min (catConfOf env₄ "pw") (priConfOf env₄ "pw"))
    rw [hconf, hmin]
    norm_num

end TicketML

namespace TicketML

lemma maxByFst_mem : ∀ (cs : List (ℚ × String)) (c : ℚ × String),
    maxByFst c cs ∈ c :: cs := by
  intro cs
  induction cs with
  | nil => intro c; simp [maxByFst]
  | cons x xs ih =>
    intro c
    rw [maxByFst, List.foldl_cons]
    have h := ih (if c.1 < x.1 then x else c)
    rw [maxByFst] at h
    rcases List.mem_cons.mp h with heq | hmem
    · rw [heq]
      by_cases hc : c.1 < x.1
      · rw [if_pos hc]; exact List.mem_cons_of_mem c (List.mem_cons_self x xs)
      · rw [if_neg hc]; exact List.mem_cons_self c (x :: xs)
    · exact List.mem_cons_of_mem c (List.mem_cons_of_mem x hmem)

lemma maxByFst_start_le : ∀ (cs : List (ℚ × String)) (c : ℚ × String),
    c.1 ≤ (maxByFst c cs).1 := by
  intro cs
  induction cs with
  | nil => intro c; exact le_refl _
  | cons x xs ih =>
    intro c
    rw [maxByFst, List.foldl_cons]
    have h := ih (if c.1 < x.1 then x else c)
    rw [maxByFst] at h
    refine le_trans ?_ h
    by_cases hc : c.1 < x.1
    · rw [if_pos hc]; exact le_of_lt hc
    · rw [if_neg hc]

lemma le_maxByFst : ∀ (cs : List (ℚ × String)) (c : ℚ × String),
    ∀ x ∈ c :: cs, x.1 ≤ (maxByFst c cs).1 := by
  intro cs
  induction cs with
  | nil =>
    intro c x hx
    rw [List.mem_singleton.mp hx]
    exact le_refl _
  | cons y ys ih =>
    intro c x hx
    rw [maxByFst, List.foldl_cons]
    rw [show (List.foldl (fun b x => if b.1 < x.1 then x else b)
        (if c.1 < y.1 then y else c) ys) = maxByFst (if c.1 < y.1 then y else c) ys
        from rfl]
    rcases List.mem_cons.mp hx with rfl | hmem
    · refine le_trans ?_ (maxByFst_start_le ys _)
      by_cases hc : x.1 < y.1
      · rw [if_pos hc]; exact le_of_lt hc
      · rw [if_neg hc]
    · rcases List.mem_cons.mp hmem with rfl | hmem₂
      · by_cases hc : c.1 < x.1
        · rw [if_pos hc]
          exact ih x x (List.mem_cons_self x ys)
        · refine le_trans (le_of_not_lt hc) ?_
          rw [if_neg hc]
          exact maxByFst_start_le ys c
      · exact ih _ x (List.mem_cons_of_mem _ hmem₂)

end TicketML

namespace TicketML

/-- C2: the deployed model per task always exposes `predict_proba`
(assuming LogisticRegression is among the evaluated candidates, which
`main` guarantees since all three families are always trained), and
whenever the tuned/refined candidate lacks probability output the deployed
model is the probability-capable roster family — LogisticRegression or
RandomForest, never LinearSVM — with the highest weighted F1 on the
held-out split (`evalF1` is the recomputed held-out F1 of the refit clone;
`hdet` states deterministic refitting, under which it coincides with the
original roster score `origF1`), even if that F1 is below the
non-probabilistic winner's. -/
theorem chooseDeployModel_proba_policy (tuned : DeployModel)
    (metricsNames : List String) (evalF1 : String → ℚ) (taskLabel : String)
    (origF1 : String → ℚ)
    (hLR : "LogisticRegression" ∈ metricsNames)
    (hdet : ∀ n, evalF1 n = origF1 n) :
    (chooseDeployModel tuned metricsNames evalF1 taskLabel).1.hasProba = true
    ∧ (tuned.hasProba = false →
        (chooseDeployModel tuned metricsNames evalF1 taskLabel).1.name ∈
          ["LogisticRegression", "RandomForest"].filter (· ∈ metricsNames) ∧
        ∀ n ∈ ["LogisticRegression", "RandomForest"].filter (· ∈ metricsNames),
          origF1 n ≤
            origF1 (chooseDeployModel tuned metricsNames evalF1 taskLabel).1.name) := by
  by_cases ht : tuned.hasProba = true
  · unfold chooseDeployModel
    rw [if_pos ht]
    exact ⟨ht, fun hf => absurd hf (by simp [ht])⟩
  · unfold chooseDeployModel
    rw [if_neg ht]
    have hmemLR : "LogisticRegression" ∈
        ["LogisticRegression", "RandomForest"].filter (· ∈ metricsNames) := by
      rw [List.mem_filter]
      exact ⟨by simp, by simpa using hLR⟩
    cases hcand : (["LogisticRegression", "RandomForest"].filter
        (· ∈ metricsNames)).map (fun n => (evalF1 n, n)) with
    | nil =>
      exfalso
      have := List.map_eq_nil_iff.mp hcand
      rw [this] at hmemLR
      cases hmemLR
    | cons c cs =>
      simp only [hcand]
      have hbest := maxByFst_mem cs c
      rw [← hcand] at hbest
      obtain ⟨n, hn, hpair⟩ := List.mem_map.mp hbest
      constructor
      · have hnames : n ∈ ["LogisticRegression", "RandomForest"] :=
          (List.mem_filter.mp hn).1
        have hname : (maxByFst c cs).2 = n := by rw [← hpair]
        rw [hname]
        rcases List.mem_cons.mp hnames with rfl | h₂
        · rfl
        · rcases List.mem_cons.mp h₂ with rfl | h₃
          · rfl
          · cases h₃
      · intro _
        constructor
        · have hname : (maxByFst c cs).2 = n := by rw [← hpair]
          rw [hname]
          exact hn
        · intro n₂ hn₂
          have hpair₂ : (evalF1 n₂, n₂) ∈ c :: cs := by
            rw [← hcand]
            exact List.mem_map.mpr ⟨n₂, hn₂, rfl⟩
          have hle := le_maxByFst cs c (evalF1 n₂, n₂) hpair₂
          have hfst : (maxByFst c cs).1 = evalF1 (maxByFst c cs).2 := by
            rw [← hpair]
          rw [hfst] at hle
          dsimp only at hle
          rwa [hdet n₂, hdet (maxByFst c cs).2] at hle

/-- Witness for C2: a non-probabilistic tuned model over the full roster
where the tree ensemble has the higher recomputed F1; the deployed model
is probability-capable and drawn from the two-family fallback roster. -/
theorem chooseDeployModel_proba_policy_witness :
    (chooseDeployModel ⟨"LinearSVC", false⟩
        ["LogisticRegression", "RandomForest", "LinearSVM"]
        (fun n => if n = "RandomForest" then 9 / 10 else 1 / 2)
        "Category").1.hasProba = true ∧
    (chooseDeployModel ⟨"LinearSVC", false⟩
        ["LogisticRegression", "RandomForest", "LinearSVM"]
        (fun n => if n = "RandomForest" then 9 / 10 else 1 / 2)
        "Category").1.name ∈
      ["LogisticRegression", "RandomForest"].filter
        (· ∈ ["LogisticRegression", "RandomForest", "LinearSVM"]) :=
  ⟨(chooseDeployModel_proba_policy ⟨"LinearSVC", false⟩
      ["LogisticRegression", "RandomForest", "LinearSVM"]
      (fun n => if n = "RandomForest" then 9 / 10 else 1 / 2) "Category"
      (fun n => if n = "RandomForest" then 9 / 10 else 1 / 2)
      (by decide) (fun n => rfl)).1,
   ((chooseDeployModel_proba_policy ⟨"LinearSVC", false⟩
      ["LogisticRegression", "RandomForest", "LinearSVM"]
      (fun n => if n = "RandomForest" then 9 / 10 else 1 / 2) "Category"
      (fun n => if n = "RandomForest" then 9 / 10 else 1 / 2)
      (by decide) (fun n => rfl)).2 rfl).1⟩

end TicketML

namespace TicketML

lemma dropnaSubset_missing {f : Frame}
    (h : "text" ∉ f.cols ∨ "category" ∉ f.cols ∨ "priority" ∉ f.cols) :
    ∃ c, dropnaSubset f = .error (.keyError c) := by
  unfold dropnaSubset
  by_cases h1 : "text" ∉ f.cols
  · rw [if_pos h1]; exact ⟨"text", rfl⟩
  · rw [if_neg h1]
    by_cases h2 : "category" ∉ f.cols
    · rw [if_pos h2]; exact ⟨"category", rfl⟩
    · rw [if_neg h2]
      by_cases h3 : "priority" ∉ f.cols
      · rw [if_pos h3]; exact ⟨"priority", rfl⟩
      · rw [if_neg h3]
        rcases h with hh | hh | hh
        · exact absurd hh h1
        · exact absurd hh h2
        · exact absurd hh h3

lemma dropnaSubset_error_is_keyError {f : Frame} {e : TrainError}
    (h : dropnaSubset f = .error e) : ∃ c, e = .keyError c := by
  unfold dropnaSubset at h
  by_cases h1 : "text" ∉ f.cols
  · rw [if_pos h1] at h
    injection h with h₂
    exact ⟨"text", h₂.symm⟩
  · rw [if_neg h1] at h
    by_cases h2 : "category" ∉ f.cols
    · rw [if_pos h2] at h
      injection h with h₂
      exact ⟨"category", h₂.symm⟩
    · rw [if_neg h2] at h
      by_cases h3 : "priority" ∉ f.cols
      · rw [if_pos h3] at h
        injection h with h₂
        exact ⟨"priority", h₂.symm⟩
      · rw [if_neg h3] at h
        cases h

/-- C5 (amended): training does fail before any classifier is fit, but not
through a dedicated `TrainingDataError` — no such exception exists in the
code.  A corpus missing a required column raises pandas `KeyError` inside
`dropna`; a corpus that becomes empty after null-filtering passes
unchecked through preprocessing and only fails with sklearn `ValueError`
at the train/test split.  In every failure the classifier-fitting stage is
never reached. -/
theorem train_failures_before_fit (f : Frame) (pre : String → String) :
    (("text" ∉ f.cols ∨ "category" ∉ f.cols ∨ "priority" ∉ f.cols) →
      ∃ c, (mainLoadPhase (some f) pre).1 = .error (.keyError c) ∧
        (mainLoadPhase (some f) pre).2 = [.loadData]) ∧
    (dropnaSubset f = .ok [] →
      (mainLoadPhase (some f) pre).1 = .error .valueErrorSplit ∧
      (mainLoadPhase (some f) pre).2 = [.loadData, .dropInvalid, .preprocessTexts]) ∧
    (∀ e, (mainLoadPhase (some f) pre).1 = .error e → e ≠ .trainingDataError) ∧
    TrainStage.fitClassifiers ∉ (mainLoadPhase (some f) pre).2 := by
  refine ⟨?_, ?_, ?_, ?_⟩
  · intro hmiss
    obtain ⟨c, hc⟩ := dropnaSubset_missing hmiss
    exact ⟨c, by simp [mainLoadPhase, hc], by simp [mainLoadPhase, hc]⟩
  · intro hok
    constructor
    · simp [mainLoadPhase, hok]
    · simp [mainLoadPhase, hok]
  · intro e he
    rw [mainLoadPhase] at he
    cases hd : dropnaSubset f with
    | error e₂ =>
      rw [hd] at he
      simp only at he
      injection he with he
      obtain ⟨c, hc⟩ := dropnaSubset_error_is_keyError hd
      rw [← he, hc]
      intro hcontra
      cases hcontra
    | ok rows =>
      rw [hd] at he
      by_cases hemp : (rows.map fun r => { r with text := pre r.text }).isEmpty
      · simp only [hemp, if_true] at he
        injection he with he
        rw [← he]
        intro hcontra
        cases hcontra
      · simp only [hemp, if_false] at he
        cases he
  · rw [mainLoadPhase]
    cases hd : dropnaSubset f with
    | error e₂ => simp
    | ok rows =>
      by_cases hemp : (rows.map fun r => { r with text := pre r.text }).isEmpty
      · simp [hemp]
      · simp [hemp]

/-- Witness for C5: the frame whose single row is null in `text`, so the
filtered corpus is empty: the failure is the split-stage `ValueError`,
after preprocessing already ran. -/
theorem train_failures_before_fit_witness :
    dropnaSubset nullRowFrame = .ok [] ∧
    ((mainLoadPhase (some nullRowFrame) id).1 = .error .valueErrorSplit ∧
      (mainLoadPhase (some nullRowFrame) id).2 =
        [.loadData, .dropInvalid, .preprocessTexts]) :=
  ⟨rfl, (train_failures_before_fit nullRowFrame id).2.1 rfl⟩

/-- C5 counterexample: on a corpus that is empty after null-filtering the
pipeline fails with the split-stage `ValueError`, not with any
`TrainingDataError`, and the failure arrives only after text preprocessing
has run — refuting the claimed dedicated pre-fit corpus check. -/
theorem empty_corpus_not_trainingDataError :
    (mainLoadPhase (some nullRowFrame) id).1 = .error .valueErrorSplit ∧
    (mainLoadPhase (some nullRowFrame) id).1 ≠ .error .trainingDataError ∧
    TrainStage.preprocessTexts ∈ (mainLoadPhase (some nullRowFrame) id).2 := by
  refine ⟨rfl, ?_, by decide⟩
  intro h
  rw [show (mainLoadPhase (some nullRowFrame) id).1 = .error .valueErrorSplit
    from rfl] at h
  injection h with h₂
  cases h₂

/-- C6 (amended): the hyperparameter-search family is LogisticRegression
whenever LogisticRegression appears among the evaluated candidates — which
in `main` is always, since all three families are trained — independently
of which candidate achieved the best weighted F1. -/
theorem bestForTuning_constant (ms : List CandMetrics)
    (h : "LogisticRegression" ∈ ms.map (·.name)) :
    bestForTuning (ms.map (·.name)) = "LogisticRegression" := by
  unfold bestForTuning
  rw [if_pos h]

/-- Witness for C6 (amended): the roster where RandomForest wins. -/
theorem bestForTuning_constant_witness :
    bestForTuning (metricsRFBest.map (·.name)) = "LogisticRegression" :=
  bestForTuning_constant metricsRFBest (by decide)

/-- C6 counterexample: with held-out weighted F1 scores 0.5 / 0.9 / 0.7,
the best candidate is RandomForest, yet the tuning-target selection still
returns LogisticRegression — the search is not run over the best
candidate's family. -/
theorem tuning_ignores_best_candidate :
    bestModelName metricsRFBest = "RandomForest" ∧
    bestForTuning (metricsRFBest.map (·.name)) = "LogisticRegression" ∧
    bestForTuning (metricsRFBest.map (·.name)) ≠ bestModelName metricsRFBest := by
  have h1 : bestModelName metricsRFBest = "RandomForest" := by
    norm_num [bestModelName, maxByF1, metricsRFBest, List.foldl]
  have h2 : bestForTuning (metricsRFBest.map (·.name)) = "LogisticRegression" := by
    decide
  refine ⟨h1, h2, ?_⟩
  rw [h1, h2]
  decide

/-- C7 (amended): `main` performs one train/test split shared by both
tasks, with `test_size = 0.2` and `random_state = 42`, stratified on the
category column only — the priority labels never form a stratification
key. -/
theorem mainLoadPhase_split_spec (f : Frame) (pre : String → String) :
    ∀ rows spec, (mainLoadPhase (some f) pre).1 = .ok (rows, spec) →
      spec.testSize = 1 / 5 ∧ spec.seed = 42 ∧
      spec.stratifyKey = rows.map (·.category) := by
  intro rows spec h
  rw [mainLoadPhase] at h
  cases hd : dropnaSubset f with
  | error e =>
    rw [hd] at h
    cases h
  | ok rs =>
    rw [hd] at h
    by_cases hemp : (rs.map fun r => { r with text := pre r.text }).isEmpty
    · simp only [hemp, if_true] at h
      cases h
    · simp only [hemp, if_false] at h
      injection h with h₂
      injection h₂ with hrows hspec
      rw [← hspec, ← hrows]
      exact ⟨rfl, rfl, rfl⟩

/-- Witness for C7 (amended): the two-row corpus. -/
theorem mainLoadPhase_split_spec_witness :
    (mainSplitCall rowsTwo).testSize = 1 / 5 ∧
    (mainSplitCall rowsTwo).seed = 42 ∧
    (mainSplitCall rowsTwo).stratifyKey = rowsTwo.map (·.category) :=
  mainLoadPhase_split_spec frameTwo id rowsTwo (mainSplitCall rowsTwo) rfl

/-- C7 counterexample: on a corpus whose category and priority labels
differ, the single split specification both tasks share is keyed on the
category labels and not on the priority labels — the priority task's split
is not stratified on its own label distribution. -/
theorem priority_split_not_stratified_on_priority :
    (mainSplitCall rowsTwo).stratifyKey = rowsTwo.map (·.category) ∧
    rowsTwo.map (·.category) ≠ rowsTwo.map (·.priority) ∧
    (mainSplitCall rowsTwo).stratifyKey ≠ rowsTwo.map (·.priority) := by
  exact ⟨rfl, by decide, by decide⟩

end TicketML
